import Mathlib

/-!
# Verification of the `lazy_ref` crate (`src/lib.rs`)

`LazyRef<'a, T>` is a non-blocking cell wrapping a single `AtomicPtr<T>`
slot: the null pointer is the "empty" sentinel, a non-null pointer is the
address of a live `&'a T`.  We embed the crate shallowly:

* a Rust reference `&'a T` is modelled by `Ref α`, an address (`Nat`)
  paired with the pointee value — keeping the address lets us state that
  the cell stores references by identity, not by value;
* the slot `AtomicPtr<T>` is modelled by `Option (Ref α)` (`none` = null);
* each mutating method returns the updated cell explicitly;
* `get_or_init` additionally returns how many times it invoked its
  initializer, so that "invokes `f` exactly once / never" is statable;
* the racy multi-thread use of `get_or_init` is modelled by a small-step
  interleaving semantics (`Step`) in which the atomic load and the atomic
  store of one `get_or_init` call are separate steps, exactly the two
  slot accesses the Rust body performs;
* cell identity (needed for the clone-independence property) is modelled
  by a heap of slots indexed by cell ids.
-/

namespace LazyRefModel

/-- A Rust reference `&'a T`: the address of the pointee together with the
pointee's value.  Two `Ref`s are pointer-equal iff they are equal as
`Ref`s (same `addr` and hence same pointee). -/
structure Ref (α : Type) where
  addr : Nat
  val : α
deriving DecidableEq, Repr

/-- The cell `LazyRef<'a, T>`: a single pointer-sized slot.  `none` models
the null sentinel of the `AtomicPtr`, `some r` models the address of the
live reference `r`.  The `PhantomData<VarianceMarker>` field is a
zero-sized compile-time marker with no runtime content, so it has no
counterpart here. -/
structure LazyRef (α : Type) where
  ptr : Option (Ref α)
deriving DecidableEq, Repr

variable {α : Type} {ε : Type}

/-- The `load_consume` of the slot (`self.ptr.load_consume()`).  In a
sequential embedding an atomic consume-ordered load returns the current
slot contents. -/
def load_consume (p : Option (Ref α)) : Option (Ref α) :=
  p

/-- `LazyRef::new`: `AtomicPtr::new(null_mut())`, the empty cell. -/
def new : LazyRef α :=
  { ptr := none }

/-- `LazyRef::new_initialized(r)`: the slot immediately holds the address
of `r`. -/
def new_initialized (r : Ref α) : LazyRef α :=
  { ptr := some r }

/-- `Default for LazyRef`: `Self::new()`. -/
def defaultCell : LazyRef α :=
  new

/-- `LazyRef::get`: consume-ordered load of the slot; null maps to `None`,
a non-null pointer is dereferenced to the stored reference. -/
def get (c : LazyRef α) : Option (Ref α) :=
  load_consume c.ptr

/-- `LazyRef::get_owned`: plain non-atomic read of the slot
(`*self.ptr.get_mut()`), available under exclusive access. -/
def get_owned (c : LazyRef α) : Option (Ref α) :=
  c.ptr

/-- `LazyRef::set`: release-ordered store of the address of `r` into the
slot, unconditionally. -/
def set (c : LazyRef α) (r : Ref α) : LazyRef α :=
  { c with ptr := some r }

/-- `LazyRef::set_owned`: plain non-atomic store of the address of `r`
(`*self.ptr.get_mut() = ...`), available under exclusive access. -/
def set_owned (c : LazyRef α) (r : Ref α) : LazyRef α :=
  { c with ptr := some r }

/-- `LazyRef::into_inner`: consumes the cell, returning `self.get_owned()`. -/
def into_inner (c : LazyRef α) : Option (Ref α) :=
  get_owned c

/-- `LazyRef::get_or_init(f)`: `self.get().unwrap_or_else(|| { let r = f();
self.ptr.store(r, Release); r })`.  Returns the resulting reference, the
cell after the call, and the number of times `f` was invoked. -/
def get_or_init (c : LazyRef α) (f : Unit → Ref α) : Ref α × LazyRef α × Nat :=
  match get c with
  | some r => (r, c, 0)
  | none =>
    let r := f ()
    (r, set c r, 1)

/-- `LazyRef::is_initialized`: `!self.ptr.load_consume().is_null()`. -/
def is_initialized (c : LazyRef α) : Bool :=
  !(load_consume c.ptr).isNone

/-- `PartialEq for &T` as used by `Option<&T>::eq`: references compare by
dereferencing to the pointees, never by address. -/
def refEqv [BEq α] (r s : Ref α) : Bool :=
  r.val == s.val

/-- `PartialEq for LazyRef`: `self.get() == other.get()`, where the
`Option<&T>` equality is `None == None`, and `Some r == Some s` iff the
pointees compare equal. -/
def cellEq [BEq α] (c d : LazyRef α) : Bool :=
  match get c, get d with
  | none, none => true
  | some r, some s => refEqv r s
  | _, _ => false

/-- `Clone for LazyRef`: `self.get().map(Self::new_initialized).unwrap_or_default()`. -/
def cloneCell (c : LazyRef α) : LazyRef α :=
  ((get c).map new_initialized).getD defaultCell

/-- `get_or_init` with a fallible initializer.  In the Rust body the
`Release` store is reached only after `f()` returns; if `f` fails
(panics/unwinds, here: returns `Except.error`), control leaves the method
before the store, so the slot is untouched.  Returns the outcome together
with the cell after the call. -/
def get_or_init_fallible (c : LazyRef α) (f : Unit → Except ε (Ref α)) :
    Except ε (Ref α) × LazyRef α :=
  match get c with
  | some r => (.ok r, c)
  | none =>
    match f () with
    | .ok r => (.ok r, set c r)
    | .error e => (.error e, c)

/-! ## Heap of cells

Rust's `Clone::clone` builds a brand-new `LazyRef` struct with its own
`AtomicPtr` slot; the clone and the original never alias.  To state this
we model a collection of live cells as a list of slots indexed by cell
id; cloning allocates a fresh id at the end of the list. -/

/-- A heap of live cells: position `i` holds the slot contents of cell
`i`. -/
abbrev Heap (α : Type) : Type :=
  List (Option (Ref α))

/-- Read the slot of cell `i` (its `get`). -/
def readCell (h : Heap α) (i : Nat) : Option (Ref α) :=
  (List.get? h i).join

/-- Write `v` into the slot of cell `i` (its `set`/`set_owned`). -/
def writeCell (h : Heap α) (i : Nat) (v : Option (Ref α)) : Heap α :=
  List.set h i v

/-- `Clone for LazyRef` at the heap level: read cell `i`'s slot and
allocate a fresh cell initialized with the value read (matching
`get().map(new_initialized).unwrap_or_default()`, since both branches
construct a new struct whose slot holds exactly the value read).  Returns
the extended heap and the id of the clone. -/
def cloneCellH (h : Heap α) (i : Nat) : Heap α × Nat :=
  (h ++ [readCell h i], h.length)

/-! ## Interleaving semantics of racing `get_or_init` calls

Each thread runs `c.get_or_init(|| cand)` for its own candidate `cand`.
The Rust body performs exactly two accesses to the shared slot: one
atomic load (`get`), and — only when the load returned null — one atomic
store.  A thread is therefore a three-state program. -/

/-- The program counter of one thread executing `get_or_init` with
candidate `cand`. -/
inductive TStat (α : Type) where
  /-- About to perform the atomic load of the slot. -/
  | pending (cand : Ref α)
  /-- The load returned null; about to run the initializer and perform the
  atomic store of `cand`. -/
  | storing (cand : Ref α)
  /-- Finished, returning `res`. -/
  | done (res : Ref α)
deriving DecidableEq, Repr

/-- A configuration: the shared slot plus the state of every thread. -/
structure Config (α : Type) where
  slot : Option (Ref α)
  threads : List (TStat α)
deriving DecidableEq, Repr

/-- One atomic step of the system: some thread performs its next slot
access. -/
inductive Step : Config α → Config α → Prop where
  /-- Thread `i` loads the slot and finds `some r`: `get_or_init` returns
  `r` without storing. -/
  | loadHit (s : Option (Ref α)) (ts : List (TStat α)) (i : Nat) (c r : Ref α) :
      List.get? ts i = some (.pending c) → s = some r →
      Step ⟨s, ts⟩ ⟨s, ts.set i (.done r)⟩
  /-- Thread `i` loads the slot and finds null: it proceeds to run its
  initializer. -/
  | loadMiss (ts : List (TStat α)) (i : Nat) (c : Ref α) :
      List.get? ts i = some (.pending c) →
      Step ⟨none, ts⟩ ⟨none, ts.set i (.storing c)⟩
  /-- Thread `i` release-stores its candidate (unconditionally — no
  compare-and-swap) and returns it. -/
  | storeStep (s : Option (Ref α)) (ts : List (TStat α)) (i : Nat) (c : Ref α) :
      List.get? ts i = some (.storing c) →
      Step ⟨s, ts⟩ ⟨some c, ts.set i (.done c)⟩

/-- The initial configuration: an empty shared cell (`new`) and one
pending thread per candidate in `L`. -/
def initConfig (L : List (Ref α)) : Config α :=
  ⟨(new : LazyRef α).ptr, L.map .pending⟩

/-- The candidate attached to a thread state: its would-be store for
`pending`/`storing`, its result for `done`. -/
def statRef : TStat α → Ref α
  | .pending c => c
  | .storing c => c
  | .done r => r

/-- Invariant of the race: the slot is null or holds a candidate, every
thread's state mentions a candidate, the thread count never changes, and
nobody has finished while the slot is still null. -/
def RaceInv (L : List (Ref α)) (cfg : Config α) : Prop :=
  (cfg.slot = none ∨ ∃ r ∈ L, cfg.slot = some r) ∧
  (∀ t ∈ cfg.threads, statRef t ∈ L) ∧
  cfg.threads.length = L.length ∧
  (cfg.slot = none → ∀ r, TStat.done r ∉ cfg.threads)

theorem raceInv_init (L : List (Ref α)) : RaceInv L (initConfig L) := by
  refine ⟨Or.inl rfl, ?_, by simp [initConfig], ?_⟩
  · intro t ht
    simp only [initConfig, List.mem_map] at ht
    obtain ⟨c, hc, rfl⟩ := ht
    simpa [statRef] using hc
  · intro _ r hr
    simp only [initConfig, List.mem_map] at hr
    obtain ⟨c, _, hc⟩ := hr
    cases hc

theorem raceInv_step {L : List (Ref α)} {cfg cfg' : Config α}
    (hstep : Step cfg cfg') (hinv : RaceInv L cfg) : RaceInv L cfg' := by
  obtain ⟨hslot, hthreads, hlen, hnone⟩ := hinv
  cases hstep with
  | loadHit s ts i c r hi hs =>
    subst hs
    have hrL : r ∈ L := by
      rcases hslot with h | ⟨r', hr', hr⟩
      · cases h
      · have hrr : r = r' := by simpa using hr
        subst hrr
        exact hr'
    refine ⟨Or.inr ⟨r, hrL, rfl⟩, ?_, by simpa using hlen, by intro h; cases h⟩
    intro t ht
    rcases List.mem_or_eq_of_mem_set ht with h | rfl
    · exact hthreads t h
    · simpa [statRef] using hrL
  | loadMiss ts i c hi =>
    have hcL : statRef (TStat.pending c) ∈ L := hthreads _ (List.get?_mem hi)
    refine ⟨Or.inl rfl, ?_, by simpa using hlen, ?_⟩
    · intro t ht
      rcases List.mem_or_eq_of_mem_set ht with h | rfl
      · exact hthreads t h
      · simpa [statRef] using hcL
    · intro _ r hr
      rcases List.mem_or_eq_of_mem_set hr with h | h
      · exact hnone rfl r h
      · cases h
  | storeStep s ts i c hi =>
    have hcL : statRef (TStat.storing c) ∈ L := hthreads _ (List.get?_mem hi)
    simp only [statRef] at hcL
    refine ⟨Or.inr ⟨c, hcL, rfl⟩, ?_, by simpa using hlen, by intro h; cases h⟩
    intro t ht
    rcases List.mem_or_eq_of_mem_set ht with h | rfl
    · exact hthreads t h
    · simpa [statRef] using hcL

theorem raceInv_reachable {L : List (Ref α)} {cfg : Config α}
    (h : Relation.ReflTransGen Step (initConfig L) cfg) : RaceInv L cfg := by
  induction h with
  | refl => exact raceInv_init L
  | tail _ hstep ih => exact raceInv_step hstep ih

/-! ## Concrete sample data used by the witnesses -/

/-- A sample reference at address 1 with pointee 10. -/
def rA : Ref Nat :=
  ⟨1, 10⟩

/-- A sample reference at address 2 with pointee 20. -/
def rB : Ref Nat :=
  ⟨2, 20⟩

/-- The candidate references of the sample two-thread race. -/
def raceCands : List (Ref Nat) :=
  [rA, rB]

/-- The final configuration of the sample race: thread 0 stored `rA`,
thread 1 then loaded it. -/
def raceFinal : Config Nat :=
  ⟨some rA, [.done rA, .done rA]⟩

/-! ## Claim theorems -/

/-- C3: a cell created by `new` (or by default construction) is empty, so
`get` returns `None`; a cell created by `new_initialized r` immediately
holds `r`, so `get` returns `Some r`. -/
theorem new_empty_new_initialized_full (r : Ref α) :
    get (new : LazyRef α) = none ∧ get (defaultCell : LazyRef α) = none ∧
    get (new_initialized r) = some r :=
  ⟨rfl, rfl, rfl⟩

/-- C2: for every cell state (empty or holding any previous reference) and
every reference `r`, `set r` is a total operation (no failure mode) that
silently overwrites any previous contents, and a subsequent `get` returns
`Some r`. -/
theorem set_then_get (c : LazyRef α) (r : Ref α) :
    get (set c r) = some r :=
  rfl

/-- C1: `get_or_init f` on an empty cell invokes `f` exactly once, stores
and returns `f`'s result, and leaves the cell such that `get` returns
`Some (f ())`; on a cell already holding `v0` it returns `v0`, never
invokes `f`, and leaves the cell unchanged. -/
theorem get_or_init_correct (c : LazyRef α) (f : Unit → Ref α) :
    (get c = none →
      (get_or_init c f).2.2 = 1 ∧ (get_or_init c f).1 = f () ∧
      get (get_or_init c f).2.1 = some (f ())) ∧
    (∀ v0, get c = some v0 →
      (get_or_init c f).2.2 = 0 ∧ (get_or_init c f).1 = v0 ∧
      (get_or_init c f).2.1 = c ∧ get (get_or_init c f).2.1 = some v0) := by
  constructor
  · intro hc
    have hc' : c.ptr = none := hc
    simp [get_or_init, get, set, load_consume, hc']
  · intro v0 hv0
    have hv0' : c.ptr = some v0 := hv0
    simp [get_or_init, get, load_consume, hv0']

/-- Witness for C1: on the concrete empty cell the initializer runs once;
on a concrete initialized cell it never runs. -/
theorem get_or_init_correct_witness :
    (get_or_init (new : LazyRef Nat) (fun _ => rA)).2.2 = 1 ∧
    (get_or_init (new_initialized rB) (fun _ => rA)).2.2 = 0 :=
  ⟨((get_or_init_correct new (fun _ => rA)).1 rfl).1,
   ((get_or_init_correct (new_initialized rB) (fun _ => rA)).2 rB rfl).1⟩

/-- C4: the exclusive-access and consuming variants are observationally
equivalent to their shared counterparts: `get_owned` returns exactly what
`get` returns in the same state, `set_owned r` produces the same cell as
`set r`, and `into_inner` returns exactly what `get` would have returned
just before consumption, in both the empty and populated cases. -/
theorem owned_variants_equiv (c : LazyRef α) (r : Ref α) :
    get_owned c = get c ∧ set_owned c r = set c r ∧ into_inner c = get c :=
  ⟨rfl, rfl, rfl⟩

/-- C5: `is_initialized` is true iff the slot is non-empty, i.e. it equals
`(get c).isSome` in the same state. -/
theorem is_initialized_iff_get_isSome (c : LazyRef α) :
    is_initialized c = (get c).isSome := by
  cases hc : c.ptr <;> simp [is_initialized, get, load_consume, hc]

/-- C6: two cells are equal iff their currently-read values are both absent
or both present with pointees that compare equal by value; the addresses of
the stored references play no role. -/
theorem cellEq_iff [BEq α] (c d : LazyRef α) :
    cellEq c d = true ↔
      ((get c = none ∧ get d = none) ∨
        ∃ r s, get c = some r ∧ get d = some s ∧ (r.val == s.val) = true) := by
  cases hc : c.ptr <;> cases hd : d.ptr <;>
    simp [cellEq, get, load_consume, refEqv, hc, hd]

/-- C7: at the instant of cloning, the clone reads equal to the original
(`get (cloneCell c) = get c`); at the heap level the clone is a fresh cell,
distinct from the original, initialized with the original's current slot
contents, and writing through the clone never changes what the original
reads, and vice versa. -/
theorem clone_roundtrip_indep (c : LazyRef α) (h : Heap α) (i : Nat)
    (hi : i < h.length) :
    get (cloneCell c) = get c ∧
    (cloneCellH h i).2 ≠ i ∧
    readCell (cloneCellH h i).1 (cloneCellH h i).2 = readCell h i ∧
    (∀ v, readCell (writeCell (cloneCellH h i).1 (cloneCellH h i).2 v) i
      = readCell h i) ∧
    (∀ v, readCell (writeCell (cloneCellH h i).1 i v) (cloneCellH h i).2
      = readCell h i) := by
  have hne : h.length ≠ i := Nat.ne_of_gt hi
  refine ⟨?_, hne, ?_, ?_, ?_⟩
  · cases hc : c.ptr <;>
      simp [cloneCell, get, load_consume, hc, new_initialized, defaultCell, new]
  · simp [cloneCellH, readCell, List.get?_concat_length]
  · intro v
    simp only [cloneCellH, writeCell, readCell]
    rw [List.get?_set_ne _ _ hne, List.get?_append hi]
  · intro v
    simp only [cloneCellH, writeCell, readCell]
    rw [List.get?_set_ne _ _ (Ne.symm hne), List.get?_concat_length]
    rfl

/-- Witness for C7: cloning the one-cell heap `[some rA]` yields a fresh
cell, and writing `none` through the clone leaves the original's read
unchanged. -/
theorem clone_roundtrip_indep_witness :
    (0 : Nat) < ([some rA] : Heap Nat).length ∧
    (cloneCellH ([some rA] : Heap Nat) 0).2 ≠ 0 ∧
    readCell (writeCell (cloneCellH ([some rA] : Heap Nat) 0).1
      (cloneCellH ([some rA] : Heap Nat) 0).2 none) 0 = readCell [some rA] 0 :=
  ⟨by decide,
   (clone_roundtrip_indep (new : LazyRef Nat) [some rA] 0 (by decide)).2.1,
   (clone_roundtrip_indep (new : LazyRef Nat) [some rA] 0 (by decide)).2.2.2.1 none⟩

/-- C8: if the initializer passed to `get_or_init` fails on an empty cell,
the store is skipped entirely: the call propagates the failure, the cell is
left exactly as it was, and a subsequent `get` returns `None`. -/
theorem get_or_init_fallible_fail (c : LazyRef α) (f : Unit → Except ε (Ref α))
    (e : ε) (hc : get c = none) (he : f () = .error e) :
    get_or_init_fallible c f = (.error e, c) ∧
    get (get_or_init_fallible c f).2 = none := by
  have : get_or_init_fallible c f = (.error e, c) := by
    simp [get_or_init_fallible, hc, he]
  exact ⟨this, by rw [this]; exact hc⟩

/-- Witness for C8: a concrete failing initializer on the concrete empty
cell leaves it empty. -/
theorem get_or_init_fallible_fail_witness :
    get_or_init_fallible (new : LazyRef Nat)
        (fun _ => (Except.error 0 : Except Nat (Ref Nat))) = (Except.error 0, new) ∧
    get (get_or_init_fallible (new : LazyRef Nat)
        (fun _ => (Except.error 0 : Except Nat (Ref Nat)))).2 = none :=
  get_or_init_fallible_fail new (fun _ => Except.error 0) 0 rfl rfl

/-- C9: when threads with candidate set `L` race `get_or_init` on one
shared, initially empty cell, in every reachable configuration (a) every
finished thread's result is one of the candidates, (b) once all threads
have finished (and there is at least one), the slot holds exactly one of
the candidates, and (c) the slot never holds anything other than a valid
candidate or the empty sentinel (no tearing). -/
theorem get_or_init_race (L : List (Ref α)) (cfg : Config α)
    (hreach : Relation.ReflTransGen Step (initConfig L) cfg) :
    (∀ r, TStat.done r ∈ cfg.threads → r ∈ L) ∧
    ((∀ t ∈ cfg.threads, ∃ r, t = TStat.done r) → L ≠ [] →
      ∃ r ∈ L, cfg.slot = some r) ∧
    (cfg.slot = none ∨ ∃ r ∈ L, cfg.slot = some r) := by
  obtain ⟨hslot, hthreads, hlen, hnone⟩ := raceInv_reachable hreach
  refine ⟨?_, ?_, hslot⟩
  · intro r hr
    have := hthreads _ hr
    simpa [statRef] using this
  · intro halldone hL
    rcases hslot with hs | hs
    · exfalso
      have hlenpos : 0 < cfg.threads.length := by
        rw [hlen]
        exact List.length_pos.mpr hL
      obtain ⟨t, ht⟩ := List.exists_mem_of_length_pos hlenpos
      obtain ⟨r, rfl⟩ := halldone t ht
      exact hnone hs r ht
    · exact hs

/-- Witness for C9: a concrete two-thread race in which thread 0 misses,
stores `rA`, and thread 1 then hits; the conclusion holds at the final
configuration. -/
theorem get_or_init_race_witness :
    (∀ r, TStat.done r ∈ raceFinal.threads → r ∈ raceCands) ∧
    ((∀ t ∈ raceFinal.threads, ∃ r, t = TStat.done r) → raceCands ≠ [] →
      ∃ r ∈ raceCands, raceFinal.slot = some r) ∧
    (raceFinal.slot = none ∨ ∃ r ∈ raceCands, raceFinal.slot = some r) := by
  apply get_or_init_race raceCands raceFinal
  have s1 : Step (⟨none, [TStat.pending rA, TStat.pending rB]⟩ : Config Nat)
      ⟨none, [TStat.storing rA, TStat.pending rB]⟩ :=
    Step.loadMiss [TStat.pending rA, TStat.pending rB] 0 rA rfl
  have s2 : Step (⟨none, [TStat.storing rA, TStat.pending rB]⟩ : Config Nat)
      ⟨some rA, [TStat.done rA, TStat.pending rB]⟩ :=
    Step.storeStep none [TStat.storing rA, TStat.pending rB] 0 rA rfl
  have s3 : Step (⟨some rA, [TStat.done rA, TStat.pending rB]⟩ : Config Nat)
      ⟨some rA, [TStat.done rA, TStat.done rA]⟩ :=
    Step.loadHit (some rA) [TStat.done rA, TStat.pending rB] 1 rB rA rfl rfl
  exact Relation.ReflTransGen.head s1
    (Relation.ReflTransGen.head s2
      (Relation.ReflTransGen.head s3 Relation.ReflTransGen.refl))

/-- C10: the cell stores references by identity: whichever way a reference
`r` is stored (`new_initialized`, `set`, `set_owned`, or a `get_or_init`
initializer returning `r`), every read (`get`, `get_owned`, `into_inner`)
with no intervening write returns the very same reference `r` — same
address, same pointee — never a copy. -/
theorem stores_by_identity (c : LazyRef α) (r : Ref α) (f : Unit → Ref α)
    (hc : get c = none) (hf : f () = r) :
    get (set c r) = some r ∧ get_owned (set c r) = some r ∧
    into_inner (set c r) = some r ∧
    get (set_owned c r) = some r ∧ get_owned (set_owned c r) = some r ∧
    into_inner (set_owned c r) = some r ∧
    get (new_initialized r) = some r ∧ get_owned (new_initialized r) = some r ∧
    into_inner (new_initialized r) = some r ∧
    (get_or_init c f).1 = r ∧ get (get_or_init c f).2.1 = some r := by
  have hc' : c.ptr = none := hc
  subst hf
  refine ⟨rfl, rfl, rfl, rfl, rfl, rfl, rfl, rfl, rfl, ?_, ?_⟩ <;>
    simp [get_or_init, get, set, load_consume, hc']

/-- Witness for C10: storing the concrete reference `rA` into the concrete
empty cell returns `rA` itself. -/
theorem stores_by_identity_witness :
    get (new : LazyRef Nat) = none ∧ (fun _ => rA) () = rA ∧
    get (set (new : LazyRef Nat) rA) = some rA ∧
    (get_or_init (new : LazyRef Nat) (fun _ => rA)).1 = rA :=
  ⟨rfl, rfl, (stores_by_identity new rA (fun _ => rA) rfl rfl).1,
   (stores_by_identity new rA (fun _ => rA) rfl rfl).2.2.2.2.2.2.2.2.2.1⟩

end LazyRefModel
